import Mathlib

set_option maxRecDepth 4000

namespace HybridRAG

/-! ## Whitespace normalization

The round-trip law of the spec is stated "modulo whitespace normalization".
We normalize a string to its list of whitespace-separated words. -/

/-- Whitespace characters recognized by the normalizer (space, newline, tab, CR). -/
def isWsChar (c : Char) : Bool := c = ' ' || c = '\n' || c = '\t' || c = '\r'

/-- Word tokenizer over characters: `acc` holds the (reversed) current word. -/
def tokensAux : List Char → List Char → List String
  | [], [] => []
  | [], a :: as => [String.mk ((a :: as).reverse)]
  | c :: cs, acc =>
    if isWsChar c then
      match acc with
      | [] => tokensAux cs []
      | a :: as => String.mk ((a :: as).reverse) :: tokensAux cs []
    else tokensAux cs (c :: acc)

/-- The list of whitespace-separated words of a string. -/
def wsTokens (s : String) : List String := tokensAux s.data []

/-! ## Data model of the ingestion pipeline

Modelled from the spec: the module `src/backend/utils/pdf_processor.py` that the
test suite exercises is not present in the repository source tree, so the
Sectionizer, Chunker, TableSchemaEngine, IngestionStore and the coordinator
`optimized_extract_and_store` are modelled from the specification's component
design (spec sections 3 and 4). -/

/-- Modelled from the spec: the kind of a sectionized Block
(heading / paragraph / bullet-list item). -/
inductive BlockKind where
  | heading
  | paragraph
  | bullet
deriving DecidableEq, Repr

/-- Modelled from the spec: a reference to an owning heading
(its text and originating page). -/
structure HeadingRef where
  text : String
  page : Nat
deriving DecidableEq, Repr

/-- Modelled from the spec: an ordered unit produced by the Sectionizer, stamped
with its page number and the heading context active at that point. -/
structure Block where
  kind : BlockKind
  text : String
  page : Nat
  ctx : Option HeadingRef
deriving DecidableEq, Repr

/-- Modelled from the spec: separator between adjacent blocks inside one chunk —
a single newline between consecutive bullets of the same list, a single blank
line otherwise. -/
def blockSep (prev cur : Block) : String :=
  if prev.kind = BlockKind.bullet ∧ cur.kind = BlockKind.bullet then "\n" else "\n\n"

/-! ## Chunker (spec section 4.3)

Modelled from the spec: maintain a running buffer of blocks; append the next
block unless doing so would exceed the maximum chunk size, in which case the
current chunk is closed and a new one starts with the pending block.  A block
is never split. -/

/-- Modelled from the spec: chunk grouping; `buf` is the (reversed, nonempty)
running buffer, `len` its rendered character count. -/
def chunkGroupsAux (maxSize : Nat) : List Block → List Block → Nat → List (List Block)
  | [], buf, _ => [buf.reverse]
  | b :: bs, buf, len =>
    let slen := (blockSep (buf.headD b) b).length
    if maxSize < len + slen + b.text.length then
      buf.reverse :: chunkGroupsAux maxSize bs [b] b.text.length
    else
      chunkGroupsAux maxSize bs (b :: buf) (len + slen + b.text.length)

/-- Modelled from the spec: group the ordered block sequence into chunk-sized
runs; an empty document produces no chunks. -/
def chunkGroups (maxSize : Nat) : List Block → List (List Block)
  | [] => []
  | b :: bs => chunkGroupsAux maxSize bs [b] b.text.length

/-- Modelled from the spec: render one chunk group, joining adjacent block
texts with the block separator. -/
def renderGroup : List Block → String
  | [] => ""
  | [b] => b.text
  | b :: b' :: rest => b.text ++ blockSep b b' ++ renderGroup (b' :: rest)

/-! ## Chunks and heading markers (spec sections 3 and 4.3) -/

/-- Modelled from the spec: the final unit of retrieval — the blocks it was
built from, an optional heading marker, the rendered body text and the page
number of its first contributing block. -/
structure Chunk where
  blocks : List Block
  marker : Option HeadingRef
  body : String
  page : Nat
deriving DecidableEq, Repr

/-- Modelled from the spec: the rendered heading marker
`"<HEADING> — (Page <N>)"` placed in front of a section's first chunk. -/
def renderMarker (h : HeadingRef) : String :=
  h.text ++ " — (Page " ++ toString h.page ++ ")\n\n"

/-- Modelled from the spec: the visible text of a chunk — its body, after the
heading marker when the chunk carries one. -/
def Chunk.text (c : Chunk) : String :=
  match c.marker with
  | some h => renderMarker h ++ c.body
  | none => c.body

/-- Modelled from the spec: the heading texts rendered in a group's visible
body (the heading blocks it contains). -/
def headingTexts (g : List Block) : List String :=
  g.filterMap fun b => if b.kind = BlockKind.heading then some b.text else none

/-- Modelled from the spec: the marker chosen for a chunk group — the active
heading of its first block, provided that heading has not been rendered in any
prior chunk (`rendered` holds the heading texts already rendered). -/
def chosenMarker (rendered : List String) (g : List Block) : Option HeadingRef :=
  match g.head? with
  | none => none
  | some b =>
    match b.ctx with
    | none => none
    | some h => if h.text ∈ rendered then none else some h

/-- Modelled from the spec: the heading texts rendered after emitting one more
chunk — the headings visible in its body plus its marker, if any. -/
def renderedAfter (rendered : List String) (g : List Block) : List String :=
  rendered ++ headingTexts g ++
    (match chosenMarker rendered g with | some h => [h.text] | none => [])

/-- Modelled from the spec: turn chunk groups into chunks, prefixing a chunk
with a heading marker exactly when it begins with a block whose active heading
has not been rendered (as a heading block or as a marker) in any prior chunk. -/
def assignMarkers : List String → List (List Block) → List Chunk
  | _, [] => []
  | rendered, g :: gs =>
    ⟨g, chosenMarker rendered g, renderGroup g, (g.head?.map Block.page).getD 0⟩ ::
      assignMarkers (renderedAfter rendered g) gs

/-- The heading texts carried by the markers of a chunk list. -/
def markerTexts (cs : List Chunk) : List String :=
  cs.filterMap fun c => c.marker.map HeadingRef.text

/-- The heading texts rendered in one chunk's visible text: the heading blocks
of its body plus its heading marker, if any. -/
def chunkRenderedTexts (c : Chunk) : List String :=
  headingTexts c.blocks ++
    (match c.marker with | some h => [h.text] | none => [])

/-- The heading texts rendered in the visible text of a list of chunks. -/
def renderedTexts (cs : List Chunk) : List String :=
  (cs.map chunkRenderedTexts).flatten

/-- Modelled from the spec: the Chunker — group the ordered block sequence and
attach heading markers. -/
def makeChunks (maxSize : Nat) (bs : List Block) : List Chunk :=
  assignMarkers [] (chunkGroups maxSize bs)

/-! ## Sectionizer (spec section 4.2)

Modelled from the spec: split a page's raw text on blank lines into candidate
blocks; classify a candidate as heading (single short visually-distinct line),
bullet list (one Block per bullet line) or paragraph (reflowed and split at
sentence boundaries); stamp every block with its page and the heading context
active at that point, carried across pages. -/

/-- Split a character list on a separator character (the lines of a text, for
the separator `'\n'`). -/
def splitOnChar (sep : Char) : List Char → List (List Char)
  | [] => [[]]
  | c :: cs =>
    if c = sep then [] :: splitOnChar sep cs
    else
      match splitOnChar sep cs with
      | [] => [[c]]
      | l :: ls => (c :: l) :: ls

/-- A line is blank when all its characters are whitespace. -/
def isBlankLine (l : List Char) : Bool := l.all isWsChar

/-- Modelled from the spec: a line is a bullet item when it starts (after
indentation) with a `-` or `*` marker. -/
def lineIsBullet (l : List Char) : Bool :=
  match l.dropWhile (fun c => c = ' ') with
  | '-' :: _ => true
  | '*' :: _ => true
  | _ => false

/-- Sentence-ending punctuation. -/
def sentenceEnd (c : Char) : Bool := c = '.' || c = '!' || c = '?'

def isUpperAlpha (c : Char) : Bool := 'A' ≤ c && c ≤ 'Z'

def isLowerAlpha (c : Char) : Bool := 'a' ≤ c && c ≤ 'z'

/-- Modelled from the spec: a single line is heading-like when it is short,
substantially upper-case (some upper-case letter, no lower-case letter) and
does not end in sentence punctuation. -/
def headingLike (l : List Char) : Bool :=
  Nat.ble l.length 80 && l.any isUpperAlpha && !(l.any isLowerAlpha) &&
    (match l.getLast? with
     | some c => !sentenceEnd c
     | none => false)

/-- Modelled from the spec: split a paragraph's characters at sentence
boundaries so that chunking never needs to split mid-sentence. -/
def splitSentencesAux : List Char → List Char → List (List Char)
  | [], [] => []
  | [], a :: as => [(a :: as).reverse]
  | c :: cs, acc =>
    if sentenceEnd c then (c :: acc).reverse :: splitSentencesAux cs []
    else splitSentencesAux cs (c :: acc)

def splitSentences (l : List Char) : List (List Char) := splitSentencesAux l []

/-- Group a list into maximal runs of elements sharing the value of `p`;
`acc` is the (reversed) current run. -/
def runsByAux (p : α → Bool) : List α → List α → List (List α)
  | [], [] => []
  | [], a :: as => [(a :: as).reverse]
  | a :: as, [] => runsByAux p as [a]
  | a :: as, b :: bs =>
    if p a = p b then runsByAux p as (a :: b :: bs)
    else (b :: bs).reverse :: runsByAux p as [a]

def runsBy (p : α → Bool) (l : List α) : List (List α) := runsByAux p l []

/-- Modelled from the spec: candidate blocks of a page — maximal runs of
non-blank lines, the blank-line runs between them discarded. -/
def candidateBlocks (text : List Char) : List (List (List Char)) :=
  (runsBy isBlankLine (splitOnChar '\n' text)).filter fun r =>
    match r with
    | [] => false
    | l :: _ => !isBlankLine l

/-- Modelled from the spec: a classified unit of page text before heading
context and page stamping. -/
structure RawBlock where
  kind : BlockKind
  text : String
deriving DecidableEq, Repr

/-- Join lines with single spaces (paragraph reflow). -/
def joinLines : List (List Char) → List Char
  | [] => []
  | [l] => l
  | l :: l' :: rest => l ++ ' ' :: joinLines (l' :: rest)

/-- Modelled from the spec: classify one homogeneous run of lines — every
bullet line becomes its own Block, a single visually-distinct line becomes a
heading, anything else is reflowed into sentence-level paragraph blocks. -/
def classifyRun (r : List (List Char)) : List RawBlock :=
  match r with
  | [] => []
  | l :: rest =>
    if lineIsBullet l then
      (l :: rest).map fun line => ⟨BlockKind.bullet, String.mk line⟩
    else if rest.isEmpty && headingLike l then
      [⟨BlockKind.heading, String.mk l⟩]
    else
      (splitSentences (joinLines (l :: rest))).map
        fun s => ⟨BlockKind.paragraph, String.mk s⟩

/-- Modelled from the spec: sectionize one candidate block, separating bullet
runs from heading/paragraph runs. -/
def sectionizeCandidate (cand : List (List Char)) : List RawBlock :=
  ((runsBy lineIsBullet cand).map classifyRun).flatten

/-- Modelled from the spec: the raw blocks of one page's extracted text. -/
def sectionizePageRaw (text : String) : List RawBlock :=
  ((candidateBlocks text.data).map sectionizeCandidate).flatten

/-- Modelled from the spec: stamp raw blocks (paired with their page number)
with the heading context active at that point; a heading block installs itself
as the context, which persists across blocks and pages. -/
def stampBlocks : Option HeadingRef → List (RawBlock × Nat) → List Block
  | _, [] => []
  | cur, (rb, pg) :: rest =>
    match rb.kind with
    | BlockKind.heading =>
      ⟨BlockKind.heading, rb.text, pg, some ⟨rb.text, pg⟩⟩ ::
        stampBlocks (some ⟨rb.text, pg⟩) rest
    | k => ⟨k, rb.text, pg, cur⟩ :: stampBlocks cur rest

/-- Modelled from the spec: one extracted page — raw text and raw table
grids. -/
structure PdfPage where
  text : String
  tables : List (List (List String))
deriving DecidableEq, Repr

/-- Modelled from the spec: the raw blocks of the pages numbered `n` onward,
each paired with its page number. -/
def pagesRawFrom (n : Nat) : List PdfPage → List (RawBlock × Nat)
  | [] => []
  | p :: ps =>
    ((sectionizePageRaw p.text).map fun rb => (rb, n)) ++ pagesRawFrom (n + 1) ps

/-- Modelled from the spec: the raw blocks of a document, each paired with its
1-based page number. -/
def pagesRaw (pages : List PdfPage) : List (RawBlock × Nat) :=
  pagesRawFrom 1 pages

/-- Modelled from the spec: the Sectionizer over a whole document — per-page
raw blocks stamped with pages and cross-page heading context. -/
def sectionizeDoc (pages : List PdfPage) : List Block :=
  stampBlocks none (pagesRaw pages)

/-- Modelled from the spec: the default soft maximum chunk size, a tunable
configuration value. -/
def defaultMaxChunkSize : Nat := 400

/-- Modelled from the spec: the chunks of a document as produced inside
`optimized_extract_and_store`. -/
def docChunks (maxSize : Nat) (pages : List PdfPage) : List Chunk :=
  makeChunks maxSize (sectionizeDoc pages)

/-! ## TableSchemaEngine (spec section 4.4) -/

/-- Modelled from the spec: a raw table grid — an ordered sequence of rows of
cell values. -/
abbrev TableGrid := List (List String)

/-- A cell that parses as a number (digits with optional sign and point). -/
def isNumericCell (s : String) : Bool :=
  !s.data.isEmpty && s.data.all fun c => c.isDigit || c = '.' || c = '-'

/-- Modelled from the spec: the first row is distinguishable as a header when
all its cells are nonempty and none parses as a number. -/
def headerLikeRow (r : List String) : Bool :=
  !r.isEmpty && r.all fun s => !s.data.isEmpty && !isNumericCell s

/-- Modelled from the spec: synthesized positional column names. -/
def positionalNames (n : Nat) : List String :=
  (List.range n).map fun i => "column_" ++ toString i

/-- Modelled from the spec: infer the ordered column names of a table from its
first row, or synthesize positional names. -/
def inferColumns (grid : TableGrid) : List String :=
  match grid with
  | [] => []
  | r :: _ => if headerLikeRow r then r else positionalNames r.length

/-- Modelled from the spec: inferred column types, in preference order. -/
inductive ColType where
  | numeric
  | text
deriving DecidableEq, Repr

/-- Modelled from the spec: infer a column's type by sampling its values —
the first type that parses all sampled values wins, else text. -/
def inferColType (samples : List String) : ColType :=
  if !samples.isEmpty && samples.all isNumericCell then ColType.numeric
  else ColType.text

/-- Modelled from the spec: the schema catalog — the registered ordered
column-name sequences; a schema's identifier is its index in the catalog. -/
structure SchemaCatalog where
  entries : List (List String)
deriving DecidableEq, Repr

/-- Look up a column-name sequence in the catalog entries, returning its
identifier (index). -/
def schemaLookup (cols : List String) : List (List String) → Option Nat
  | [] => none
  | e :: es => if e = cols then some 0 else (schemaLookup cols es).map (· + 1)

/-- Modelled from the spec: resolve a column-name sequence against the known
schemas — structural equality reuses the schema's identifier, otherwise a new
schema is registered under a fresh identifier. -/
def resolveSchema (cat : SchemaCatalog) (cols : List String) : Nat × SchemaCatalog :=
  match schemaLookup cols cat.entries with
  | some i => (i, cat)
  | none => (cat.entries.length, ⟨cat.entries ++ [cols]⟩)

/-- Modelled from the spec: process the tables of one pipeline run in order,
resolving each table's inferred columns against the evolving catalog; returns
the (columns, schema identifier) assignment per table and the final catalog. -/
def processTables (cat : SchemaCatalog) : List TableGrid → List (List String × Nat) × SchemaCatalog
  | [] => ([], cat)
  | g :: gs =>
    ((inferColumns g, (resolveSchema cat (inferColumns g)).1) ::
        (processTables (resolveSchema cat (inferColumns g)).2 gs).1,
      (processTables (resolveSchema cat (inferColumns g)).2 gs).2)

/-! ## IngestionStore (spec section 4.6) -/

/-- Modelled from the spec: one persisted chunk row,
`chunks(document_id, sequence_index, text, page, embedding)`. -/
structure ChunkRow where
  docId : String
  seqIdx : Nat
  text : String
  page : Nat
  embedding : Option (List Int)
deriving DecidableEq, Repr

/-- Modelled from the spec: one persisted table row,
`tables(document_id, schema_id, page, rows)`. -/
structure TableRow where
  docId : String
  schemaId : Nat
  page : Nat
  rows : TableGrid
deriving DecidableEq, Repr

/-- Modelled from the spec: the relational store visible to readers. -/
structure Store where
  chunkRows : List ChunkRow
  tableRows : List TableRow
  catalog : SchemaCatalog
deriving DecidableEq, Repr

/-- The uniqueness key of a persisted chunk row. -/
def ChunkRow.key (r : ChunkRow) : String × Nat := (r.docId, r.seqIdx)

/-- Modelled from the spec: build the chunk rows of one document, sequence
indices assigned in order. -/
def mkChunkRows (docId : String) (cs : List (String × Nat × Option (List Int))) :
    List ChunkRow :=
  ((List.range cs.length).zip cs).map fun e => ⟨docId, e.1, e.2.1, e.2.2.1, e.2.2.2⟩

/-- Modelled from the spec: the atomic replace of one document's derived rows —
prior rows for the same identifier are deleted before the new rows are
inserted, in one logical transaction. -/
def replaceDocRows (docId : String) (newChunks : List ChunkRow)
    (newTables : List TableRow) (st : Store) : Store :=
  { st with
    chunkRows := (st.chunkRows.filter fun r => r.docId != docId) ++ newChunks
    tableRows := (st.tableRows.filter fun r => r.docId != docId) ++ newTables }

/-- The chunk rows visible to a reader for one document identifier. -/
def chunkRowsFor (docId : String) (st : Store) : List ChunkRow :=
  st.chunkRows.filter fun r => r.docId == docId

/-- The table rows visible to a reader for one document identifier. -/
def tableRowsFor (docId : String) (st : Store) : List TableRow :=
  st.tableRows.filter fun r => r.docId == docId

/-! ## PDFProcessor coordinator (spec sections 4.1, 4.7) -/

/-- Modelled from the spec: the outcome of the PDF-parsing collaborator —
per-page content, or a fatal `PDFReadError`. -/
inductive PdfReadResult where
  | ok (pages : List PdfPage)
  | readError (msg : String)
deriving Repr

/-- Modelled from the spec: the run summary returned by the coordinator. -/
structure RunSummary where
  text_chunks : List String
  tablesStored : Nat
  errors : List String
deriving DecidableEq, Repr

/-- Modelled from the spec: the result of one ingestion run — `none` as summary
means the run failed with `PDFReadError`; the store is the state visible after
the run. -/
structure RunResult where
  summary : Option RunSummary
  store : Store
deriving Repr

/-- Modelled from the spec: the table grids of a document, each paired with its
1-based page number. -/
def docTableGridsFrom (n : Nat) : List PdfPage → List (TableGrid × Nat)
  | [] => []
  | p :: ps => (p.tables.map fun t => (t, n)) ++ docTableGridsFrom (n + 1) ps

/-- Modelled from the spec: all table grids of a document with page numbers. -/
def docTableGrids (pages : List PdfPage) : List (TableGrid × Nat) :=
  docTableGridsFrom 1 pages

/-- Modelled from the spec: the recorded error message for a table whose
storage failed (isolated failure, the table is skipped). -/
def tableFailMsg (g : TableGrid) : String :=
  "table storage failed (" ++ toString g.length ++ " rows)"

/-- Modelled from the spec: the recorded error message for a chunk whose
embedding could not be obtained after retries. -/
def embedFailMsg (c : Chunk) : String :=
  "embedding failed for chunk: " ++ c.text

/-- Modelled from the spec: the recorded errors of the tables whose storage
failed (isolated failures, the failing tables are skipped). -/
def tableErrorsOf (pages : List PdfPage) (tableOk : TableGrid → Bool) : List String :=
  (docTableGrids pages).filterMap fun gp =>
    if tableOk gp.1 then none else some (tableFailMsg gp.1)

/-- Modelled from the spec: the recorded errors of the chunks whose embedding
failed after bounded retry (partial-failure semantics). -/
def embedErrorsOf (maxSize : Nat) (pages : List PdfPage)
    (embedSvc : String → Option (List Int)) : List String :=
  (docChunks maxSize pages).filterMap fun c =>
    match embedSvc c.text with
    | none => some (embedFailMsg c)
    | some _ => none

/-- Modelled from the spec: the chunk rows one run persists — one row per
chunk, in order, with the chunk's embedding when the service succeeded. -/
def newChunkRows (docId : String) (pages : List PdfPage)
    (embedSvc : String → Option (List Int)) (maxSize : Nat) : List ChunkRow :=
  mkChunkRows docId ((docChunks maxSize pages).map fun c => (c.text, c.page, embedSvc c.text))

/-- Modelled from the spec: the table rows one run persists — one row per
successfully stored table, under its resolved schema identifier. -/
def newTableRows (docId : String) (pages : List PdfPage) (tableOk : TableGrid → Bool)
    (cat : SchemaCatalog) : List TableRow :=
  ((docTableGrids pages).zip (processTables cat ((docTableGrids pages).map Prod.fst)).1).filterMap
    fun ga => if tableOk ga.1.1 then some ⟨docId, ga.2.2, ga.1.2, ga.1.1⟩ else none

/-- Modelled from the spec: the coordinator `optimized_extract_and_store` —
extraction, sectionization, chunking, table schema resolution, embedding and
the atomic store replace, in order.  A `PDFReadError` is fatal and aborts the
run before any persistence; per-table storage failures and per-chunk embedding
failures are recorded in the run's error list and do not abort the run.
`embedSvc` models the external embedding service after bounded retry (`none` =
exhausted), `tableOk` models per-table storage success. -/
def optimized_extract_and_store (docId : String) (pdf : PdfReadResult)
    (embedSvc : String → Option (List Int)) (tableOk : TableGrid → Bool)
    (maxSize : Nat) (st : Store) : RunResult :=
  match pdf with
  | PdfReadResult.readError _ => ⟨none, st⟩
  | PdfReadResult.ok pages =>
    ⟨some ⟨(docChunks maxSize pages).map Chunk.text,
        (newTableRows docId pages tableOk st.catalog).length,
        tableErrorsOf pages tableOk ++ embedErrorsOf maxSize pages embedSvc⟩,
      replaceDocRows docId (newChunkRows docId pages embedSvc maxSize)
        (newTableRows docId pages tableOk st.catalog)
        { st with catalog := (processTables st.catalog ((docTableGrids pages).map Prod.fst)).2 }⟩

/-- The text chunks of a run result (empty when the run failed). -/
def textChunksOf (r : RunResult) : List String :=
  (r.summary.map RunSummary.text_chunks).getD []

/-- The recorded errors of a run result (empty when the run failed). -/
def errorsOf (r : RunResult) : List String :=
  (r.summary.map RunSummary.errors).getD []

/-- The empty relational store. -/
def emptyStore : Store := ⟨[], [], ⟨[]⟩⟩

/-- The store visible after one successful ingestion run. -/
def ingestStore (docId : String) (pages : List PdfPage)
    (embedSvc : String → Option (List Int)) (tableOk : TableGrid → Bool)
    (maxSize : Nat) (st : Store) : Store :=
  (optimized_extract_and_store docId (PdfReadResult.ok pages) embedSvc tableOk maxSize st).store

/-! ## Front-end HTTP client and chat state
(`src/src/frontend/streamlit_app.py`)

These definitions embed the real source: `APIClient.send_query`,
`APIClient.send_generic_rag_query` and `ChatUI._handle_user_input`.  The
network is modelled as the outcome the `requests` library produces for the
single POST a call performs; Streamlit rendering and logging side effects are
modelled as the list of performed requests and the list of logged error
codes. -/

namespace Frontend

/-- A Python string is falsy-after-strip exactly when all its characters are
whitespace (this covers `not query or not query.strip()`). -/
def isBlankStr (s : String) : Bool := s.data.all isWsChar

/-- Python's `str.strip()`: remove leading and trailing whitespace. -/
def pyStrip (s : String) : String :=
  String.mk (((s.data.dropWhile isWsChar).reverse.dropWhile isWsChar).reverse)

/-- An HTTP response: status code, whether the body is valid JSON, and the
JSON object's string fields. -/
structure HttpResponse where
  status : Nat
  validJson : Bool
  fields : List (String × String)
deriving DecidableEq, Repr

/-- The outcome of one `requests.Session.post` call. -/
inductive NetOutcome where
  | response (r : HttpResponse)
  | timeout
  | connError
deriving DecidableEq, Repr

/-- First value bound to a key in a JSON object's fields. -/
def lookupField : List (String × String) → String → Option String
  | [], _ => none
  | kv :: rest, key => if kv.1 = key then some kv.2 else lookupField rest key

/-- What `send_query` does from its caller's point of view: return `None`,
return a `ChatResponse` with this answer, or raise an `APIError` with this
error code. -/
inductive QueryOutcome where
  | returnedNone
  | returned (answer : String)
  | raisedAPIError (code : String)
deriving DecidableEq, Repr

/-- The observable result of one `send_query` call: its outcome, the HTTP
requests it performed (url, stripped query, optional pdf uuid) and the error
codes it logged via `ErrorHandler.log_error`. -/
structure SendResult where
  outcome : QueryOutcome
  requests : List (String × String × Option String)
  logged : List String
deriving DecidableEq, Repr

/-- `APIClient.send_query` (streamlit_app.py, lines 174-297): an empty or
whitespace-only query logs a `ValidationError` (`EMPTY_QUERY`) and returns
`None` without any HTTP request; otherwise one POST is sent to
`{endpoint}/answer`; 404, 500 and every other non-200 status raise an
`APIError`, as do invalid JSON and a missing `answer` field; a timeout or
connection error is logged and turned into `None`. -/
def send_query (endpoint : String) (query : String) (pdfUuid : Option String)
    (net : NetOutcome) : SendResult :=
  if isBlankStr query then
    ⟨QueryOutcome.returnedNone, [], ["EMPTY_QUERY"]⟩
  else
    let req := [(endpoint ++ "/answer", pyStrip query, pdfUuid)]
    match net with
    | NetOutcome.timeout => ⟨QueryOutcome.returnedNone, req, ["TIMEOUT"]⟩
    | NetOutcome.connError => ⟨QueryOutcome.returnedNone, req, ["CONNECTION_ERROR"]⟩
    | NetOutcome.response r =>
      if r.status = 404 then ⟨QueryOutcome.raisedAPIError "ENDPOINT_NOT_FOUND", req, []⟩
      else if r.status = 500 then ⟨QueryOutcome.raisedAPIError "SERVER_ERROR", req, []⟩
      else if r.status ≠ 200 then ⟨QueryOutcome.raisedAPIError "UNEXPECTED_STATUS", req, []⟩
      else if !r.validJson then ⟨QueryOutcome.raisedAPIError "INVALID_JSON", req, []⟩
      else
        match lookupField r.fields "answer" with
        | none => ⟨QueryOutcome.raisedAPIError "MISSING_RESPONSE_FIELDS", req, []⟩
        | some a => ⟨QueryOutcome.returned a, req, []⟩

/-- What `send_generic_rag_query` does from its caller's point of view: it
never raises — every failure is logged and turned into `None`. -/
inductive GenericOutcome where
  | returnedNone
  | returned (resp : String)
deriving DecidableEq, Repr

/-- The observable result of one `send_generic_rag_query` call. -/
structure GenericResult where
  outcome : GenericOutcome
  requests : List (String × String)
deriving DecidableEq, Repr

/-- `APIClient.send_generic_rag_query` (streamlit_app.py, lines 299-355): no
configured backend or a blank query returns `None` without a request;
otherwise one POST is sent to `{backend}/chat` and every failure — non-200
status, invalid JSON, missing `response` field, timeout, connection error — is
logged and turned into `None`. -/
def send_generic_rag_query (backendUrl : Option String) (query : String)
    (net : NetOutcome) : GenericResult :=
  match backendUrl with
  | none => ⟨GenericOutcome.returnedNone, []⟩
  | some burl =>
    if isBlankStr query then ⟨GenericOutcome.returnedNone, []⟩
    else
      let req := [(burl ++ "/chat", pyStrip query)]
      match net with
      | NetOutcome.timeout => ⟨GenericOutcome.returnedNone, req⟩
      | NetOutcome.connError => ⟨GenericOutcome.returnedNone, req⟩
      | NetOutcome.response r =>
        if r.status ≠ 200 then ⟨GenericOutcome.returnedNone, req⟩
        else if !r.validJson then ⟨GenericOutcome.returnedNone, req⟩
        else
          match lookupField r.fields "response" with
          | none => ⟨GenericOutcome.returnedNone, req⟩
          | some v => ⟨GenericOutcome.returned v, req⟩

/-- The session state manipulated by `ChatUI`: chat messages (role, content)
and the two per-architecture response lists. -/
structure ChatState where
  messages : List (String × String)
  hybridResponses : List String
  genericResponses : List String
  errorCount : Nat
deriving DecidableEq, Repr

/-- The fixed substitute answer when the HybridRAG backend returns `None`. -/
def hybridErrorMsg : String := "Error: Unable to get response from HybridRAG"

/-- The fixed substitute answer when the GenericRAG backend returns `None`. -/
def genericErrorMsg : String := "Error: Unable to get response from GenericRAG"

/-- `ChatUI._handle_user_input` (streamlit_app.py, lines 437-480): blank input
only warns; otherwise the stripped input is appended as a user message, both
backends are queried, one answer (or the fixed error string) is appended to
each response list and one `dual_response` assistant marker is appended.  When
`send_query` raises an `APIError` the surrounding `except Exception` handler
logs it and returns: the user message has already been appended but no
response entries and no `dual_response` marker are. -/
def handle_user_input (endpoint : String) (backendUrl : Option String)
    (pdfUuid : Option String) (st : ChatState) (userInput : String)
    (hybridNet genericNet : NetOutcome) : ChatState :=
  if isBlankStr userInput then st
  else
    let st1 := { st with messages := st.messages ++ [("user", pyStrip userInput)] }
    let hr := send_query endpoint (pyStrip userInput) pdfUuid hybridNet
    match hr.outcome with
    | QueryOutcome.raisedAPIError _ => st1
    | o =>
      let hybridAnswer := match o with
        | QueryOutcome.returned a => a
        | _ => hybridErrorMsg
      let gr := send_generic_rag_query backendUrl (pyStrip userInput) genericNet
      let genericAnswer := match gr.outcome with
        | GenericOutcome.returned v => v
        | GenericOutcome.returnedNone => genericErrorMsg
      { st1 with
        messages := st1.messages ++ [("assistant", "dual_response")]
        hybridResponses := st1.hybridResponses ++ [hybridAnswer]
        genericResponses := st1.genericResponses ++ [genericAnswer]
        errorCount := 0 }

/-- The number of `dual_response` assistant markers in the chat history; in
`display_chat_history` each one indexes a pair of per-architecture
responses. -/
def dualResponseCount (st : ChatState) : Nat :=
  st.messages.countP fun m => m.1 == "assistant" && m.2 == "dual_response"

/-- The alignment invariant of the dual-response chat history. -/
def aligned (st : ChatState) : Prop :=
  st.hybridResponses.length = st.genericResponses.length
    ∧ dualResponseCount st = st.hybridResponses.length

end Frontend

/-! ## Lemmas -/
theorem tokensAux_ws_split (w : Char) (hw : isWsChar w = true) :
    ∀ (xs acc ys : List Char),
      tokensAux (xs ++ w :: ys) acc = tokensAux xs acc ++ tokensAux ys [] := by
  intro xs
  induction xs with
  | nil =>
    intro acc ys
    cases acc with
    | nil => simp [tokensAux, hw]
    | cons a as => simp [tokensAux, hw]
  | cons c cs ih =>
    intro acc ys
    by_cases hc : isWsChar c
    · cases acc with
      | nil => simp [tokensAux, hc, ih]
      | cons a as => simp [tokensAux, hc, ih]
    · simp [tokensAux, hc, ih]

theorem tokensAux_allws_append (l : List Char) (h : ∀ c ∈ l, isWsChar c = true) :
    ∀ t : List Char, tokensAux (l ++ t) [] = tokensAux t [] := by
  induction l with
  | nil => intro t; rfl
  | cons c cs ih =>
    intro t
    have hc : isWsChar c = true := h c (by simp)
    simp only [List.cons_append, tokensAux, hc, if_pos]
    exact ih (fun c hc' => h c (by simp [hc'])) t

theorem tokensAux_sep_split (l : List Char) (hne : l ≠ [])
    (h : ∀ c ∈ l, isWsChar c = true) (s t : List Char) :
    tokensAux (s ++ (l ++ t)) [] = tokensAux s [] ++ tokensAux t [] := by
  cases l with
  | nil => exact absurd rfl hne
  | cons w rest =>
    have hw : isWsChar w = true := h w (by simp)
    have : s ++ ((w :: rest) ++ t) = s ++ w :: (rest ++ t) := by simp
    rw [this, tokensAux_ws_split w hw,
      tokensAux_allws_append rest (fun c hc => h c (by simp [hc]))]

theorem wsTokens_append_sep (sep s t : String) (hne : sep.data ≠ [])
    (h : ∀ c ∈ sep.data, isWsChar c = true) :
    wsTokens (s ++ sep ++ t) = wsTokens s ++ wsTokens t := by
  show tokensAux (s ++ sep ++ t).data [] = tokensAux s.data [] ++ tokensAux t.data []
  have hd : (s ++ sep ++ t).data = s.data ++ (sep.data ++ t.data) := by
    simp [String.data_append]
  rw [hd, tokensAux_sep_split sep.data hne h]

theorem blockSep_data_ne_nil (prev cur : Block) : (blockSep prev cur).data ≠ [] := by
  unfold blockSep
  split <;> decide

theorem blockSep_data_ws (prev cur : Block) :
    ∀ c ∈ (blockSep prev cur).data, isWsChar c = true := by
  unfold blockSep
  split <;> decide

theorem chunkGroupsAux_flatten (maxSize : Nat) :
    ∀ (bs buf : List Block) (len : Nat),
      (chunkGroupsAux maxSize bs buf len).flatten = buf.reverse ++ bs := by
  intro bs
  induction bs with
  | nil => intro buf len; simp [chunkGroupsAux]
  | cons b bs ih =>
    intro buf len
    simp only [chunkGroupsAux]
    split
    · simp [ih]
    · simp [ih]

theorem chunkGroups_flatten (maxSize : Nat) (bs : List Block) :
    (chunkGroups maxSize bs).flatten = bs := by
  cases bs with
  | nil => rfl
  | cons b bs => simp [chunkGroups, chunkGroupsAux_flatten]

theorem chunkGroupsAux_ne_nil (maxSize : Nat) :
    ∀ (bs buf : List Block) (len : Nat) (g : List Block),
      g ∈ chunkGroupsAux maxSize bs buf len → buf ≠ [] → g ≠ [] := by
  intro bs
  induction bs with
  | nil =>
    intro buf len g hg hbuf
    simp [chunkGroupsAux] at hg
    subst hg
    simpa using hbuf
  | cons b bs ih =>
    intro buf len g hg hbuf
    simp only [chunkGroupsAux] at hg
    split at hg
    · rcases List.mem_cons.mp hg with h | h
      · subst h; simpa using hbuf
      · exact ih [b] b.text.length g h (by simp)
    · exact ih (b :: buf) _ g hg (by simp)

theorem chunkGroups_ne_nil (maxSize : Nat) (bs : List Block) :
    ∀ g ∈ chunkGroups maxSize bs, g ≠ [] := by
  cases bs with
  | nil => intro g hg; simp [chunkGroups] at hg
  | cons b bs =>
    intro g hg
    exact chunkGroupsAux_ne_nil maxSize bs [b] b.text.length g hg (by simp)

theorem wsTokens_renderGroup (g : List Block) :
    wsTokens (renderGroup g) = (g.map fun b => wsTokens b.text).flatten := by
  induction g with
  | nil => rfl
  | cons b rest ih =>
    cases rest with
    | nil => simp [renderGroup]
    | cons b' rest' =>
      simp only [renderGroup]
      rw [wsTokens_append_sep (blockSep b b') b.text (renderGroup (b' :: rest'))
        (blockSep_data_ne_nil b b') (blockSep_data_ws b b'), ih]
      simp

theorem Chunk.text_eq (c : Chunk) :
    c.text = (match c.marker with | some h => renderMarker h | none => "") ++ c.body := by
  cases hm : c.marker <;> simp [Chunk.text, hm]

theorem assignMarkers_blocks (gs : List (List Block)) :
    ∀ rendered, (assignMarkers rendered gs).map Chunk.blocks = gs := by
  induction gs with
  | nil => intro rendered; rfl
  | cons g gs ih => intro rendered; simp [assignMarkers, ih]

theorem assignMarkers_body (gs : List (List Block)) :
    ∀ rendered, (assignMarkers rendered gs).map Chunk.body = gs.map renderGroup := by
  induction gs with
  | nil => intro rendered; rfl
  | cons g gs ih => intro rendered; simp [assignMarkers, ih]

theorem chosenMarker_spec (rendered : List String) (g : List Block) (h : HeadingRef)
    (hh : chosenMarker rendered g = some h) :
    g.head?.bind Block.ctx = some h ∧ h.text ∉ rendered := by
  cases hg : g.head? with
  | none => simp [chosenMarker, hg] at hh
  | some b =>
    cases hb : b.ctx with
    | none => simp [chosenMarker, hg, hb] at hh
    | some h' =>
      by_cases hr : h'.text ∈ rendered
      · simp [chosenMarker, hg, hb, hr] at hh
      · simp [chosenMarker, hg, hb, hr] at hh
        subst hh
        exact ⟨by simp [hb], hr⟩

theorem mem_renderedAfter (rendered : List String) (g : List Block) (t : String)
    (ht : t ∈ rendered) : t ∈ renderedAfter rendered g := by
  unfold renderedAfter; simp [ht]

theorem marker_mem_renderedAfter (rendered : List String) (g : List Block) (h : HeadingRef)
    (hh : chosenMarker rendered g = some h) : h.text ∈ renderedAfter rendered g := by
  unfold renderedAfter; rw [hh]; simp

theorem markerTexts_cons (c : Chunk) (cs : List Chunk) :
    markerTexts (c :: cs) =
      (match c.marker with | some h => [h.text] | none => []) ++ markerTexts cs := by
  cases hm : c.marker <;> simp [markerTexts, hm]

theorem assignMarkers_marker_spec (gs : List (List Block)) :
    ∀ rendered,
      (∀ c ∈ assignMarkers rendered gs, ∀ h, c.marker = some h →
        c.blocks.head?.bind Block.ctx = some h ∧ h.text ∉ rendered)
      ∧ (markerTexts (assignMarkers rendered gs)).Nodup
      ∧ (∀ t ∈ markerTexts (assignMarkers rendered gs), t ∉ rendered) := by
  induction gs with
  | nil =>
    intro rendered
    exact ⟨by simp [assignMarkers], by simp [assignMarkers, markerTexts],
      by simp [assignMarkers, markerTexts]⟩
  | cons g gs ih =>
    intro rendered
    obtain ⟨ih1, ih2, ih3⟩ := ih (renderedAfter rendered g)
    refine ⟨?_, ?_, ?_⟩
    · intro c hc h hh
      rw [assignMarkers] at hc
      rcases List.mem_cons.mp hc with rfl | hc'
      · simp only at hh
        obtain ⟨h1, h2⟩ := chosenMarker_spec rendered g h hh
        exact ⟨by simpa using h1, h2⟩
      · obtain ⟨h1, h2⟩ := ih1 c hc' h hh
        exact ⟨h1, fun ht => h2 (mem_renderedAfter rendered g _ ht)⟩
    · rw [assignMarkers, markerTexts_cons]
      cases hmkc : chosenMarker rendered g with
      | none => simpa using ih2
      | some h =>
        simp only [List.singleton_append, List.nodup_cons]
        refine ⟨fun hin => ih3 _ hin ?_, ih2⟩
        exact marker_mem_renderedAfter rendered g h hmkc
    · intro t ht
      rw [assignMarkers, markerTexts_cons] at ht
      rcases List.mem_append.mp ht with h1 | h2
      · cases hmkc : chosenMarker rendered g with
        | none => rw [hmkc] at h1; simp at h1
        | some h =>
          rw [hmkc] at h1
          simp at h1
          subst h1
          exact (chosenMarker_spec rendered g h hmkc).2
      · intro hr
        exact ih3 t h2 (mem_renderedAfter rendered g t hr)

theorem assignMarkers_not_rendered (gs : List (List Block)) :
    ∀ (rendered : List String) (cs1 : List Chunk) (c : Chunk) (cs2 : List Chunk),
      assignMarkers rendered gs = cs1 ++ c :: cs2 →
      ∀ h, c.marker = some h → h.text ∉ rendered ++ renderedTexts cs1 := by
  induction gs with
  | nil =>
    intro rendered cs1 c cs2 heq h hh
    rw [assignMarkers] at heq
    exact absurd heq.symm (by simp)
  | cons g gs ih =>
    intro rendered cs1 c cs2 heq h hh
    rw [assignMarkers] at heq
    cases cs1 with
    | nil =>
      rw [List.nil_append] at heq
      have hc := (List.cons_eq_cons.mp heq).1
      have hm : chosenMarker rendered g = some h := by
        rw [← hc] at hh
        exact hh
      have := (chosenMarker_spec rendered g h hm).2
      simpa [renderedTexts] using this
    | cons c0 cs1' =>
      rw [List.cons_append] at heq
      have h0 := (List.cons_eq_cons.mp heq).1
      have hrest := (List.cons_eq_cons.mp heq).2
      have hmem := ih (renderedAfter rendered g) cs1' c cs2 hrest h hh
      have hlist : rendered ++ renderedTexts (c0 :: cs1')
          = renderedAfter rendered g ++ renderedTexts cs1' := by
        rw [← h0]
        simp [renderedTexts, chunkRenderedTexts, renderedAfter, List.append_assoc]
      rw [hlist]
      exact hmem

theorem splitOnChar_ne_nil (sep : Char) (xs : List Char) : splitOnChar sep xs ≠ [] := by
  cases xs with
  | nil => simp [splitOnChar]
  | cons c cs =>
    rw [splitOnChar]
    split
    · simp
    · cases h : splitOnChar sep cs <;> simp

theorem splitOnChar_flatten (sep : Char) (xs : List Char) :
    (splitOnChar sep xs).flatten = xs.filter fun c => c != sep := by
  induction xs with
  | nil => simp [splitOnChar]
  | cons c cs ih =>
    rw [splitOnChar]
    by_cases hc : c = sep
    · subst hc
      simp [List.filter_cons, ih]
    · rw [if_neg hc]
      cases h : splitOnChar sep cs with
      | nil => exact absurd h (splitOnChar_ne_nil sep cs)
      | cons l ls =>
        rw [h] at ih
        simp only [List.flatten_cons, List.cons_append, List.filter_cons]
        have : (c != sep) = true := by simpa using hc
        rw [this]
        simp only [← List.flatten_cons, ← ih]
        simp

theorem runsByAux_flatten (p : α → Bool) :
    ∀ (l acc : List α), (runsByAux p l acc).flatten = acc.reverse ++ l := by
  intro l
  induction l with
  | nil =>
    intro acc
    cases acc <;> simp [runsByAux]
  | cons a as ih =>
    intro acc
    cases acc with
    | nil => simpa [runsByAux] using ih [a]
    | cons b bs =>
      rw [runsByAux]
      split
      · simpa using ih (a :: b :: bs)
      · simpa using ih [a]

theorem runsBy_flatten (p : α → Bool) (l : List α) : (runsBy p l).flatten = l := by
  simpa using runsByAux_flatten p l []

theorem runsByAux_homog (p : α → Bool) :
    ∀ (l acc : List α), (∀ x ∈ acc, ∀ y ∈ acc, p x = p y) →
      ∀ r ∈ runsByAux p l acc, ∀ x ∈ r, ∀ y ∈ r, p x = p y := by
  intro l
  induction l with
  | nil =>
    intro acc hacc r hr
    cases acc with
    | nil => simp [runsByAux] at hr
    | cons b bs =>
      rw [runsByAux, List.mem_singleton] at hr
      subst hr
      intro x hx y hy
      rw [List.mem_reverse] at hx hy
      exact hacc x hx y hy
  | cons a as ih =>
    intro acc hacc r hr
    cases acc with
    | nil =>
      refine ih [a] ?_ r (by simpa [runsByAux] using hr)
      intro x hx y hy
      simp at hx hy
      subst hx; subst hy; rfl
    | cons b bs =>
      rw [runsByAux] at hr
      by_cases hab : p a = p b
      · rw [if_pos hab] at hr
        refine ih (a :: b :: bs) ?_ r hr
        have hall : ∀ x ∈ a :: b :: bs, p x = p b := by
          intro x hx
          rcases List.mem_cons.mp hx with rfl | hx'
          · exact hab
          · exact hacc x hx' b (by simp)
        intro x hx y hy
        rw [hall x hx, hall y hy]
      · rw [if_neg hab] at hr
        rcases List.mem_cons.mp hr with rfl | hr'
        · intro x hx y hy
          rw [List.mem_reverse] at hx hy
          exact hacc x hx y hy
        · refine ih [a] ?_ r hr'
          intro x hx y hy
          simp at hx hy
          subst hx; subst hy; rfl

theorem runsBy_homog (p : α → Bool) (l : List α) :
    ∀ r ∈ runsBy p l, ∀ x ∈ r, ∀ y ∈ r, p x = p y :=
  runsByAux_homog p l [] (by simp)

theorem splitSentencesAux_ne_nil :
    ∀ (xs acc : List Char), xs ≠ [] ∨ acc ≠ [] → splitSentencesAux xs acc ≠ [] := by
  intro xs
  induction xs with
  | nil =>
    intro acc h
    rcases h with h | h
    · exact absurd rfl h
    · cases acc with
      | nil => exact absurd rfl h
      | cons a as => simp [splitSentencesAux]
  | cons c cs ih =>
    intro acc h
    rw [splitSentencesAux]
    split
    · simp
    · exact ih (c :: acc) (Or.inr (by simp))

theorem joinLines_ne_nil (l : List Char) (ls : List (List Char)) (hl : l ≠ []) :
    joinLines (l :: ls) ≠ [] := by
  cases ls with
  | nil => simpa [joinLines] using hl
  | cons l' rest => simp [joinLines]

theorem classifyRun_ne_nil (r : List (List Char)) (hne : r ≠ [])
    (hnb : ∀ l ∈ r, isBlankLine l = false) : classifyRun r ≠ [] := by
  cases r with
  | nil => exact absurd rfl hne
  | cons l rest =>
    have hl : l ≠ [] := by
      intro h
      subst h
      have := hnb [] (by simp)
      simp [isBlankLine] at this
    rw [classifyRun]
    by_cases hb : lineIsBullet l
    · simp [hb]
    · rw [if_neg hb]
      split
      · simp
      · have hj : joinLines (l :: rest) ≠ [] := joinLines_ne_nil l rest hl
        have hs : splitSentences (joinLines (l :: rest)) ≠ [] :=
          splitSentencesAux_ne_nil (joinLines (l :: rest)) [] (Or.inl hj)
        simpa using hs

theorem flatten_ne_nil_of_mem {L : List (List α)} {x : List α}
    (hx : x ∈ L) (hne : x ≠ []) : L.flatten ≠ [] := by
  obtain ⟨a, ha⟩ := List.exists_mem_of_ne_nil x hne
  exact List.ne_nil_of_mem (List.mem_flatten.mpr ⟨x, hx, ha⟩)

theorem sectionizePageRaw_ne_nil (text : String) (c : Char) (hc : c ∈ text.data)
    (hw : isWsChar c = false) : sectionizePageRaw text ≠ [] := by
  have hcne : (c != '\n') = true := by
    have : c ≠ '\n' := by
      intro h
      subst h
      simp [isWsChar] at hw
    simpa using this
  have hcf : c ∈ (splitOnChar '\n' text.data).flatten := by
    rw [splitOnChar_flatten]
    exact List.mem_filter.mpr ⟨hc, hcne⟩
  obtain ⟨line, hline, hcl⟩ := List.mem_flatten.mp hcf
  have hlb : isBlankLine line = false := by
    cases h : isBlankLine line
    · rfl
    · rw [isBlankLine, List.all_eq_true] at h
      rw [h c hcl] at hw
      cases hw
  have hlf : line ∈ (runsBy isBlankLine (splitOnChar '\n' text.data)).flatten := by
    rw [runsBy_flatten]
    exact hline
  obtain ⟨r, hr, hlr⟩ := List.mem_flatten.mp hlf
  have hhomog := runsBy_homog isBlankLine (splitOnChar '\n' text.data) r hr
  have hrnb : ∀ l ∈ r, isBlankLine l = false := by
    intro l hl
    rw [hhomog l hl line hlr]
    exact hlb
  have hrcb : r ∈ candidateBlocks text.data := by
    rw [candidateBlocks]
    refine List.mem_filter.mpr ⟨hr, ?_⟩
    cases r with
    | nil => cases hlr
    | cons l0 rest0 => simp [hrnb l0 (by simp)]
  have hscne : sectionizeCandidate r ≠ [] := by
    have hlrf : line ∈ (runsBy lineIsBullet r).flatten := by
      rw [runsBy_flatten]
      exact hlr
    obtain ⟨sr, hsr, hlsr⟩ := List.mem_flatten.mp hlrf
    have hsrne : sr ≠ [] := List.ne_nil_of_mem hlsr
    have hsrnb : ∀ l ∈ sr, isBlankLine l = false := by
      intro l hl
      refine hrnb l ?_
      have : l ∈ (runsBy lineIsBullet r).flatten := List.mem_flatten.mpr ⟨sr, hsr, hl⟩
      rwa [runsBy_flatten] at this
    exact flatten_ne_nil_of_mem (List.mem_map_of_mem classifyRun hsr)
      (classifyRun_ne_nil sr hsrne hsrnb)
  exact flatten_ne_nil_of_mem (List.mem_map_of_mem sectionizeCandidate hrcb) hscne

theorem stampBlocks_ne_nil (cur : Option HeadingRef) (l : List (RawBlock × Nat))
    (h : l ≠ []) : stampBlocks cur l ≠ [] := by
  cases l with
  | nil => exact absurd rfl h
  | cons x rest =>
    obtain ⟨rb, pg⟩ := x
    rw [stampBlocks]
    cases rb.kind <;> simp

theorem pagesRawFrom_ne_nil (pages : List PdfPage) :
    ∀ n : Nat, (∃ p ∈ pages, sectionizePageRaw p.text ≠ []) →
      pagesRawFrom n pages ≠ [] := by
  induction pages with
  | nil => intro n h; simp at h
  | cons p ps ih =>
    intro n h
    obtain ⟨q, hq, hqne⟩ := h
    rw [pagesRawFrom]
    intro habs
    rcases List.append_eq_nil.mp habs with ⟨h1, h2⟩
    rcases List.mem_cons.mp hq with rfl | hq'
    · exact hqne (by simpa using h1)
    · exact ih (n + 1) ⟨q, hq', hqne⟩ h2

theorem docChunks_ne_nil (maxSize : Nat) (pages : List PdfPage)
    (h : ∃ p ∈ pages, ∃ c ∈ p.text.data, isWsChar c = false) :
    docChunks maxSize pages ≠ [] := by
  obtain ⟨p, hp, c, hc, hw⟩ := h
  have hblocks : sectionizeDoc pages ≠ [] := by
    rw [sectionizeDoc]
    refine stampBlocks_ne_nil none _ ?_
    exact pagesRawFrom_ne_nil pages 1 ⟨p, hp, sectionizePageRaw_ne_nil p.text c hc hw⟩
  have hgroups : chunkGroups maxSize (sectionizeDoc pages) ≠ [] := by
    intro habs
    have := chunkGroups_flatten maxSize (sectionizeDoc pages)
    rw [habs] at this
    exact hblocks this.symm
  intro habs
  have := assignMarkers_blocks (chunkGroups maxSize (sectionizeDoc pages)) []
  rw [docChunks, makeChunks] at habs
  rw [habs] at this
  exact hgroups this.symm

theorem flatten_map_flatten (f : α → List β) (L : List (List α)) :
    (L.map fun g => (g.map f).flatten).flatten = (L.flatten.map f).flatten := by
  induction L with
  | nil => rfl
  | cons g L ih => simp [ih]

theorem mkChunkRows_docId (docId : String) (cs : List (String × Nat × Option (List Int))) :
    ∀ r ∈ mkChunkRows docId cs, r.docId = docId := by
  intro r hr
  rw [mkChunkRows] at hr
  obtain ⟨e, he, rfl⟩ := List.mem_map.mp hr
  rfl

theorem mkChunkRows_keys (docId : String) (cs : List (String × Nat × Option (List Int))) :
    (mkChunkRows docId cs).map ChunkRow.key
      = (List.range cs.length).map fun i => (docId, i) := by
  rw [mkChunkRows, List.map_map]
  have h1 : ((List.range cs.length).zip cs).map Prod.fst = List.range cs.length :=
    List.map_fst_zip _ _ (by simp)
  calc ((List.range cs.length).zip cs).map
        (ChunkRow.key ∘ fun e => ⟨docId, e.1, e.2.1, e.2.2.1, e.2.2.2⟩)
      = ((List.range cs.length).zip cs).map ((fun i => (docId, i)) ∘ Prod.fst) := rfl
    _ = (((List.range cs.length).zip cs).map Prod.fst).map (fun i => (docId, i)) := by
        rw [List.map_map]
    _ = (List.range cs.length).map fun i => (docId, i) := by rw [h1]

theorem mkChunkRows_keys_nodup (docId : String) (cs : List (String × Nat × Option (List Int))) :
    ((mkChunkRows docId cs).map ChunkRow.key).Nodup := by
  rw [mkChunkRows_keys]
  refine (List.nodup_range _).map ?_
  intro a b h
  simpa using h

theorem chunkRowsFor_replace (docId : String) (newC : List ChunkRow) (newT : List TableRow)
    (st : Store) (h : ∀ r ∈ newC, r.docId = docId) :
    chunkRowsFor docId (replaceDocRows docId newC newT st) = newC := by
  rw [chunkRowsFor, replaceDocRows]
  simp only [List.filter_append]
  have h1 : ((st.chunkRows.filter fun r => r.docId != docId).filter
      fun r => r.docId == docId) = [] := by
    rw [List.filter_eq_nil_iff]
    intro a ha
    have := (List.mem_filter.mp ha).2
    simp at this ⊢
    exact this
  have h2 : (newC.filter fun r => r.docId == docId) = newC := by
    rw [List.filter_eq_self]
    intro a ha
    simp [h a ha]
  rw [h1, h2, List.nil_append]

theorem tableRowsFor_replace (docId : String) (newC : List ChunkRow) (newT : List TableRow)
    (st : Store) (h : ∀ r ∈ newT, r.docId = docId) :
    tableRowsFor docId (replaceDocRows docId newC newT st) = newT := by
  rw [tableRowsFor, replaceDocRows]
  simp only [List.filter_append]
  have h1 : ((st.tableRows.filter fun r => r.docId != docId).filter
      fun r => r.docId == docId) = [] := by
    rw [List.filter_eq_nil_iff]
    intro a ha
    have := (List.mem_filter.mp ha).2
    simp at this ⊢
    exact this
  have h2 : (newT.filter fun r => r.docId == docId) = newT := by
    rw [List.filter_eq_self]
    intro a ha
    simp [h a ha]
  rw [h1, h2, List.nil_append]

theorem replaceDocRows_keys_nodup (docId : String) (newC : List ChunkRow)
    (newT : List TableRow) (st : Store)
    (hst : (st.chunkRows.map ChunkRow.key).Nodup)
    (hnew : (newC.map ChunkRow.key).Nodup)
    (hdoc : ∀ r ∈ newC, r.docId = docId) :
    ((replaceDocRows docId newC newT st).chunkRows.map ChunkRow.key).Nodup := by
  rw [replaceDocRows]
  simp only [List.map_append]
  refine List.Nodup.append ?_ hnew ?_
  · exact List.Nodup.sublist (List.Sublist.map ChunkRow.key (List.filter_sublist _)) hst
  · intro k hk1 hk2
    obtain ⟨r, hr, rfl⟩ := List.mem_map.mp hk1
    obtain ⟨r', hr', hke⟩ := List.mem_map.mp hk2
    have h1 : r.docId ≠ docId := by
      have := (List.mem_filter.mp hr).2
      simpa using this
    have h2 : r'.docId = docId := hdoc r' hr'
    have h3 : r'.docId = r.docId := congrArg Prod.fst hke
    exact h1 (h3 ▸ h2)

theorem schemaLookup_lt (cols : List String) :
    ∀ (es : List (List String)) (i : Nat), schemaLookup cols es = some i → i < es.length := by
  intro es
  induction es with
  | nil => intro i h; simp [schemaLookup] at h
  | cons e es ih =>
    intro i h
    rw [schemaLookup] at h
    by_cases he : e = cols
    · rw [if_pos he] at h
      cases h
      simp
    · rw [if_neg he] at h
      cases hl : schemaLookup cols es with
      | none => rw [hl] at h; simp at h
      | some j =>
        rw [hl] at h
        simp at h
        have := ih j hl
        simp
        omega

theorem schemaLookup_append_some (cols : List String) :
    ∀ (es : List (List String)) (i : Nat), schemaLookup cols es = some i →
      ∀ fs, schemaLookup cols (es ++ fs) = some i := by
  intro es
  induction es with
  | nil => intro i h; simp [schemaLookup] at h
  | cons e es ih =>
    intro i h fs
    rw [schemaLookup] at h
    rw [List.cons_append, schemaLookup]
    by_cases he : e = cols
    · rw [if_pos he] at h ⊢
      exact h
    · rw [if_neg he] at h ⊢
      cases hl : schemaLookup cols es with
      | none => rw [hl] at h; simp at h
      | some j =>
        rw [hl] at h
        rw [ih j hl fs]
        exact h

theorem schemaLookup_append_none (cols : List String) :
    ∀ (es : List (List String)), schemaLookup cols es = none →
      ∀ fs, schemaLookup cols (es ++ fs) = (schemaLookup cols fs).map (· + es.length) := by
  intro es
  induction es with
  | nil =>
    intro h fs
    cases hfs : schemaLookup cols fs <;> simp [hfs]
  | cons e es ih =>
    intro h fs
    rw [schemaLookup] at h
    by_cases he : e = cols
    · rw [if_pos he] at h
      simp at h
    · rw [if_neg he] at h
      have hes : schemaLookup cols es = none := by
        cases hl : schemaLookup cols es
        · rfl
        · rw [hl] at h; simp at h
      rw [List.cons_append, schemaLookup, if_neg he, ih hes fs]
      cases schemaLookup cols fs with
      | none => simp
      | some j =>
        simp
        omega

theorem processTables_append (l1 : List TableGrid) :
    ∀ (cat : SchemaCatalog) (l2 : List TableGrid),
      processTables cat (l1 ++ l2)
        = ((processTables cat l1).1 ++ (processTables (processTables cat l1).2 l2).1,
           (processTables (processTables cat l1).2 l2).2) := by
  induction l1 with
  | nil => intro cat l2; simp [processTables]
  | cons g gs ih =>
    intro cat l2
    show processTables cat (g :: (gs ++ l2)) = _
    rw [processTables, ih, processTables]
    simp

theorem processTables_spec (gs : List TableGrid) :
    ∀ cat : SchemaCatalog,
      (∃ fs, (processTables cat gs).2.entries = cat.entries ++ fs)
      ∧ (∀ a ∈ (processTables cat gs).1,
          schemaLookup a.1 (processTables cat gs).2.entries = some a.2) := by
  induction gs with
  | nil =>
    intro cat
    exact ⟨⟨[], by simp [processTables]⟩, by simp [processTables]⟩
  | cons g gs ih =>
    intro cat
    cases hl : schemaLookup (inferColumns g) cat.entries with
    | some i =>
      have hres : resolveSchema cat (inferColumns g) = (i, cat) := by
        rw [resolveSchema, hl]
      obtain ⟨⟨fs, hfs⟩, hall⟩ := ih cat
      have hpt : processTables cat (g :: gs)
          = ((inferColumns g, i) :: (processTables cat gs).1, (processTables cat gs).2) := by
        rw [processTables, hres]
      rw [hpt]
      refine ⟨⟨fs, hfs⟩, ?_⟩
      intro a ha
      rcases List.mem_cons.mp ha with rfl | ha'
      · show schemaLookup (inferColumns g) (processTables cat gs).2.entries = some i
        rw [hfs]
        exact schemaLookup_append_some _ _ i hl fs
      · exact hall a ha'
    | none =>
      have hres : resolveSchema cat (inferColumns g)
          = (cat.entries.length, ⟨cat.entries ++ [inferColumns g]⟩) := by
        rw [resolveSchema, hl]
      obtain ⟨⟨fs, hfs⟩, hall⟩ := ih ⟨cat.entries ++ [inferColumns g]⟩
      have hpt : processTables cat (g :: gs)
          = ((inferColumns g, cat.entries.length)
                :: (processTables ⟨cat.entries ++ [inferColumns g]⟩ gs).1,
             (processTables ⟨cat.entries ++ [inferColumns g]⟩ gs).2) := by
        rw [processTables, hres]
      rw [hpt]
      constructor
      · refine ⟨[inferColumns g] ++ fs, ?_⟩
        rw [hfs]
        simp
      · intro a ha
        rcases List.mem_cons.mp ha with rfl | ha'
        · show schemaLookup (inferColumns g)
              (processTables ⟨cat.entries ++ [inferColumns g]⟩ gs).2.entries
            = some cat.entries.length
          rw [hfs, List.append_assoc, schemaLookup_append_none _ _ hl,
            List.singleton_append, schemaLookup, if_pos rfl]
          simp
        · exact hall a ha'

theorem processTables_assigned_lt (cat : SchemaCatalog) (gs : List TableGrid) :
    ∀ a ∈ (processTables cat gs).1, a.2 < (processTables cat gs).2.entries.length := by
  intro a ha
  exact schemaLookup_lt a.1 _ a.2 ((processTables_spec gs cat).2 a ha)

theorem processTables_length (gs : List TableGrid) :
    ∀ cat : SchemaCatalog, (processTables cat gs).1.length = gs.length := by
  induction gs with
  | nil => intro cat; rfl
  | cons g gs ih => intro cat; simp [processTables, ih]

theorem map_wsTokens_body (gs : List (List Block)) :
    ∀ rendered, (assignMarkers rendered gs).map (fun c => wsTokens c.body)
      = gs.map fun g => (g.map fun b => wsTokens b.text).flatten := by
  induction gs with
  | nil => intro rendered; rfl
  | cons g gs ih => intro rendered; simp [assignMarkers, ih, wsTokens_renderGroup]

/-! ## The claims -/

/-- C1: for every Document (in particular every non-empty one), concatenating
the texts of all chunks produced by `optimized_extract_and_store` in order,
with their heading-marker prefixes stripped (a chunk's text is definitionally
its marker rendering followed by its body, so the stripped text is the body),
reconstructs the full ordered Block text of the Document with no loss beyond
whitespace normalization. -/
theorem chunk_roundtrip_claim (maxSize : Nat) (pages : List PdfPage) :
    ((docChunks maxSize pages).map fun c => wsTokens c.body).flatten
      = ((sectionizeDoc pages).map fun b => wsTokens b.text).flatten := by
  rw [docChunks, makeChunks, map_wsTokens_body, flatten_map_flatten, chunkGroups_flatten]

/-- C4: every chunk boundary coincides with a Block boundary — the chunks'
block groups concatenate back to the ordered Block sequence exactly, and every
chunk is built from at least one whole Block (so no sentence-level paragraph
Block and no bullet-item Block is ever split across two chunks), even when a
single Block exceeds the soft maximum chunk size. -/
theorem chunk_boundaries_claim (maxSize : Nat) (bs : List Block) :
    ((makeChunks maxSize bs).map Chunk.blocks).flatten = bs
      ∧ ((makeChunks maxSize bs).all fun c => !c.blocks.isEmpty) = true := by
  constructor
  · rw [makeChunks, assignMarkers_blocks, chunkGroups_flatten]
  · rw [List.all_eq_true]
    intro c hc
    have hmem : c.blocks ∈ (makeChunks maxSize bs).map Chunk.blocks :=
      List.mem_map_of_mem _ hc
    rw [makeChunks, assignMarkers_blocks] at hmem
    have := chunkGroups_ne_nil maxSize bs c.blocks hmem
    simpa using this

/-- C2 counterexample: the Document whose single page's extracted text is the
non-empty string "\n" is a non-empty Document in the claim's literal sense,
yet `optimized_extract_and_store` returns an empty `text_chunks` list for
it — there is no content to chunk once whitespace is normalized away. -/
theorem blank_page_counterexample :
    ("\n" : String) ≠ ""
      ∧ textChunksOf (optimized_extract_and_store "doc1" (PdfReadResult.ok [⟨"\n", []⟩])
          (fun _ => none) (fun _ => true) defaultMaxChunkSize emptyStore) = [] := by
  constructor
  · decide
  · rfl

/-- C2 (amended): for every Document with at least one page whose extracted
text contains a non-whitespace character, `optimized_extract_and_store`
produces at least one chunk in its returned `text_chunks` list. -/
theorem nonblank_page_produces_chunk (docId : String) (pages : List PdfPage)
    (embedSvc : String → Option (List Int)) (tableOk : TableGrid → Bool)
    (maxSize : Nat) (st : Store)
    (h : ∃ p ∈ pages, ∃ c ∈ p.text.data, isWsChar c = false) :
    textChunksOf (optimized_extract_and_store docId (PdfReadResult.ok pages)
        embedSvc tableOk maxSize st) ≠ [] := by
  have hne := docChunks_ne_nil maxSize pages h
  show (docChunks maxSize pages).map Chunk.text ≠ []
  intro habs
  apply hne
  simpa using habs

/-- C2 witness: a concrete one-page Document with non-blank text yields a
non-empty chunk list. -/
theorem nonblank_page_produces_chunk_witness :
    textChunksOf (optimized_extract_and_store "doc1"
        (PdfReadResult.ok [⟨"Hello world.", []⟩]) (fun _ => none) (fun _ => true)
        defaultMaxChunkSize emptyStore) ≠ [] :=
  nonblank_page_produces_chunk "doc1" [⟨"Hello world.", []⟩] (fun _ => none)
    (fun _ => true) defaultMaxChunkSize emptyStore
    ⟨⟨"Hello world.", []⟩, by simp, 'H', by decide, by decide⟩

/-- C3 counterexample: in the Document whose single page reads
"Intro paragraph here.\n\nHEADING TWO\n\nBody text here.", the heading
HEADING TWO exists and the one chunk of the Document contains content
belonging to it, yet that chunk carries no heading marker and its text does
not start with "HEADING TWO — (Page 1)" — the heading began mid-chunk, so the
chunk starts with the block that precedes the heading. -/
theorem heading_midchunk_counterexample :
    ((docChunks defaultMaxChunkSize
        [⟨"Intro paragraph here.\n\nHEADING TWO\n\nBody text here.", []⟩]).map
      fun c => (c.marker, c.text, c.blocks.map Block.ctx))
      = [(none, "Intro paragraph here.\n\nHEADING TWO\n\nBody text here.",
          [none, some ⟨"HEADING TWO", 1⟩, some ⟨"HEADING TWO", 1⟩])]
    ∧ ("Intro paragraph here.\n\nHEADING TWO\n\nBody text here.").data.take
        ("HEADING TWO — (Page 1)".data.length) ≠ "HEADING TWO — (Page 1)".data := by
  constructor
  · rfl
  · decide

/-- C3 (amended): a chunk carries the heading marker "H — (Page P)" only when
it begins with a Block whose active heading is H with originating page P (and
then its text is exactly the rendered marker followed by the body) and H was
not yet rendered in any earlier chunk's visible text — neither as a heading
block inside an earlier chunk's body nor as an earlier chunk's marker; no two
chunks carry a marker for the same heading text, so a heading's marker is
never repeated; and the first chunk of a Document, when it begins with a Block
under heading H, carries exactly the marker of H. -/
theorem heading_marker_claim (maxSize : Nat) (pages : List PdfPage) :
    (∀ c ∈ docChunks maxSize pages, ∀ h, c.marker = some h →
        c.blocks.head?.bind Block.ctx = some h ∧ c.text = renderMarker h ++ c.body)
    ∧ (∀ (cs1 : List Chunk) (c : Chunk) (cs2 : List Chunk),
        docChunks maxSize pages = cs1 ++ c :: cs2 →
        ∀ h, c.marker = some h → h.text ∉ renderedTexts cs1)
    ∧ (markerTexts (docChunks maxSize pages)).Nodup
    ∧ (∀ c h, (docChunks maxSize pages).head? = some c →
        c.blocks.head?.bind Block.ctx = some h → c.marker = some h) := by
  obtain ⟨h1, h2, _⟩ := assignMarkers_marker_spec (chunkGroups maxSize (sectionizeDoc pages)) []
  refine ⟨?_, ?_, h2, ?_⟩
  · intro c hc h hh
    exact ⟨(h1 c hc h hh).1, by simp [Chunk.text, hh]⟩
  · intro cs1 c cs2 hdec h hh
    rw [docChunks, makeChunks] at hdec
    have := assignMarkers_not_rendered (chunkGroups maxSize (sectionizeDoc pages)) []
      cs1 c cs2 hdec h hh
    simpa using this
  · intro c h hc hctx
    rw [docChunks, makeChunks] at hc
    cases hgs : chunkGroups maxSize (sectionizeDoc pages) with
    | nil => rw [hgs] at hc; simp [assignMarkers] at hc
    | cons g gs' =>
      rw [hgs, assignMarkers] at hc
      simp only [List.head?_cons, Option.some.injEq] at hc
      subst hc
      simp only at hctx
      show chosenMarker [] g = some h
      cases hg : g.head? with
      | none => rw [hg] at hctx; cases hctx
      | some b =>
        rw [hg] at hctx
        simp only [Option.some_bind] at hctx
        simp [chosenMarker, hg, hctx]

/-- C3 witness: in a Document that opens with a heading, the first chunk
carries that heading's marker, begins with a Block owned by it, and the
heading was rendered in no earlier chunk (there is none). -/
theorem heading_marker_claim_witness :
    ((docChunks defaultMaxChunkSize [⟨"HELLO WORLD\n\nSome body text.", []⟩]).headD
        ⟨[], none, "", 0⟩).blocks.head?.bind Block.ctx = some ⟨"HELLO WORLD", 1⟩
    ∧ ("HELLO WORLD" : String) ∉ renderedTexts [] := by
  have h := heading_marker_claim defaultMaxChunkSize [⟨"HELLO WORLD\n\nSome body text.", []⟩]
  constructor
  · exact (h.1 ((docChunks defaultMaxChunkSize [⟨"HELLO WORLD\n\nSome body text.", []⟩]).headD
      ⟨[], none, "", 0⟩) (by decide) ⟨"HELLO WORLD", 1⟩ (by decide)).1
  · exact h.2.1 [] ((docChunks defaultMaxChunkSize [⟨"HELLO WORLD\n\nSome body text.", []⟩]).headD
      ⟨[], none, "", 0⟩) [] (by decide) ⟨"HELLO WORLD", 1⟩ (by decide)

theorem newChunkRows_docId (docId : String) (pages : List PdfPage)
    (embedSvc : String → Option (List Int)) (maxSize : Nat) :
    ∀ r ∈ newChunkRows docId pages embedSvc maxSize, r.docId = docId := by
  intro r hr
  exact mkChunkRows_docId docId _ r hr

theorem newTableRows_docId (docId : String) (pages : List PdfPage)
    (tableOk : TableGrid → Bool) (cat : SchemaCatalog) :
    ∀ r ∈ newTableRows docId pages tableOk cat, r.docId = docId := by
  intro r hr
  rw [newTableRows] at hr
  obtain ⟨ga, hga, heq⟩ := List.mem_filterMap.mp hr
  by_cases hok : tableOk ga.1.1
  · rw [if_pos hok] at heq
    cases heq
    rfl
  · rw [if_neg hok] at heq
    cases heq

theorem ingestStore_eq (docId : String) (pages : List PdfPage)
    (embedSvc : String → Option (List Int)) (tableOk : TableGrid → Bool)
    (maxSize : Nat) (st : Store) :
    ingestStore docId pages embedSvc tableOk maxSize st
      = replaceDocRows docId (newChunkRows docId pages embedSvc maxSize)
          (newTableRows docId pages tableOk st.catalog)
          { st with catalog := (processTables st.catalog ((docTableGrids pages).map Prod.fst)).2 } :=
  rfl

/-- C5: after re-ingesting a Document under the same document identifier,
exactly the new chunk rows and table rows are visible for that identifier —
no rows of the prior ingestion remain and no chunk is duplicated — and every
persisted chunk row keeps a unique (document_id, sequence_index) key. -/
theorem reingest_replace_claim (docId : String) (pages1 pages2 : List PdfPage)
    (embed1 embed2 : String → Option (List Int)) (tOk1 tOk2 : TableGrid → Bool)
    (maxSize : Nat) (st : Store)
    (hkeys : (st.chunkRows.map ChunkRow.key).Nodup) :
    chunkRowsFor docId (ingestStore docId pages2 embed2 tOk2 maxSize
        (ingestStore docId pages1 embed1 tOk1 maxSize st))
      = newChunkRows docId pages2 embed2 maxSize
    ∧ tableRowsFor docId (ingestStore docId pages2 embed2 tOk2 maxSize
        (ingestStore docId pages1 embed1 tOk1 maxSize st))
      = newTableRows docId pages2 tOk2 (ingestStore docId pages1 embed1 tOk1 maxSize st).catalog
    ∧ ((ingestStore docId pages2 embed2 tOk2 maxSize
        (ingestStore docId pages1 embed1 tOk1 maxSize st)).chunkRows.map ChunkRow.key).Nodup
    ∧ (ingestStore docId pages2 embed2 tOk2 maxSize
        (ingestStore docId pages1 embed1 tOk1 maxSize st)).chunkRows.Nodup := by
  have hnodup2 : ((ingestStore docId pages2 embed2 tOk2 maxSize
      (ingestStore docId pages1 embed1 tOk1 maxSize st)).chunkRows.map ChunkRow.key).Nodup := by
    rw [ingestStore_eq docId pages2]
    refine replaceDocRows_keys_nodup docId _ _ _ ?_ (mkChunkRows_keys_nodup docId _)
      (newChunkRows_docId docId pages2 embed2 maxSize)
    show ((ingestStore docId pages1 embed1 tOk1 maxSize st).chunkRows.map ChunkRow.key).Nodup
    rw [ingestStore_eq docId pages1]
    exact replaceDocRows_keys_nodup docId _ _ _ hkeys (mkChunkRows_keys_nodup docId _)
      (newChunkRows_docId docId pages1 embed1 maxSize)
  refine ⟨?_, ?_, hnodup2, ?_⟩
  · rw [ingestStore_eq docId pages2]
    exact chunkRowsFor_replace docId _ _ _ (newChunkRows_docId docId pages2 embed2 maxSize)
  · rw [ingestStore_eq docId pages2]
    exact tableRowsFor_replace docId _ _ _ (newTableRows_docId docId pages2 tOk2 _)
  · exact List.Nodup.of_map ChunkRow.key hnodup2

/-- C5 witness: a concrete re-ingestion under one identifier leaves exactly
the second run's chunk rows visible. -/
theorem reingest_replace_claim_witness :
    chunkRowsFor "d" (ingestStore "d" [⟨"Second version.", []⟩] (fun _ => none)
        (fun _ => true) defaultMaxChunkSize
        (ingestStore "d" [⟨"First version.", []⟩] (fun _ => none) (fun _ => true)
          defaultMaxChunkSize emptyStore))
      = newChunkRows "d" [⟨"Second version.", []⟩] (fun _ => none) defaultMaxChunkSize := by
  have h := reingest_replace_claim "d" [⟨"First version.", []⟩] [⟨"Second version.", []⟩]
      (fun _ => none) (fun _ => none) (fun _ => true) (fun _ => true) defaultMaxChunkSize
      emptyStore (by decide)
  exact h.1

/-- C6: within one pipeline run over a catalog of previously seen schemas, two
tables whose inferred ordered column-name sequences are identical resolve to
the same schema identifier; and a table whose column sequence matches no
previously seen schema — neither the catalog state reached before it nor any
schema registered earlier in the run — is registered as a new schema under a
fresh identifier different from every identifier assigned before it. -/
theorem schema_resolution_claim (cat : SchemaCatalog) (gs : List TableGrid) :
    (∀ p ∈ (processTables cat gs).1, ∀ q ∈ (processTables cat gs).1,
        p.1 = q.1 → p.2 = q.2)
    ∧ ∀ (pre : List TableGrid) (g : TableGrid) (post : List TableGrid),
        gs = pre ++ g :: post →
        schemaLookup (inferColumns g) (processTables cat pre).2.entries = none →
        (processTables cat gs).1
            = (processTables cat pre).1
              ++ (inferColumns g, (processTables cat pre).2.entries.length)
                :: (processTables ⟨(processTables cat pre).2.entries ++ [inferColumns g]⟩ post).1
          ∧ ∀ p ∈ (processTables cat pre).1, p.2 ≠ (processTables cat pre).2.entries.length := by
  constructor
  · intro p hp q hq hpq
    have h1 := (processTables_spec gs cat).2 p hp
    have h2 := (processTables_spec gs cat).2 q hq
    rw [hpq, h2] at h1
    exact (Option.some.injEq _ _).mp h1.symm
  · intro pre g post hgs hnone
    subst hgs
    have hres : resolveSchema (processTables cat pre).2 (inferColumns g)
        = ((processTables cat pre).2.entries.length,
           ⟨(processTables cat pre).2.entries ++ [inferColumns g]⟩) := by
      rw [resolveSchema, hnone]
    constructor
    · have happ := processTables_append pre cat (g :: post)
      rw [happ]
      show (processTables cat pre).1
          ++ (processTables (processTables cat pre).2 (g :: post)).1 = _
      rw [processTables, hres]
    · intro p hp
      exact Nat.ne_of_lt (processTables_assigned_lt cat pre p hp)

/-- C6 witness: in a run starting from the empty catalog, the first table's
column sequence matches no schema and is registered under the fresh
identifier 0. -/
theorem schema_resolution_claim_witness :
    (processTables ⟨[]⟩ [[["name"], ["bob"]]]).1 = [(["name"], 0)] := by
  have h := ((schema_resolution_claim ⟨[]⟩ [[["name"], ["bob"]]]).2 [] [["name"], ["bob"]] []
      rfl (by decide)).1
  rw [h]
  rfl

/-- C7: a `PDFReadError` is fatal — the run returns no summary and the store
is unchanged, so nothing is persisted for the document — whereas on a readable
PDF the run always completes with a summary whose chunks are produced
regardless of failures, and every per-table storage failure and per-chunk
embedding failure is recorded in the run's error list without aborting the
rest of the run. -/
theorem pdf_error_fatal_claim (docId msg : String) (pages : List PdfPage)
    (embedSvc : String → Option (List Int)) (tableOk : TableGrid → Bool)
    (maxSize : Nat) (st : Store) :
    optimized_extract_and_store docId (PdfReadResult.readError msg) embedSvc tableOk maxSize st
        = ⟨none, st⟩
    ∧ (optimized_extract_and_store docId (PdfReadResult.ok pages) embedSvc tableOk maxSize st).summary
        = some ⟨(docChunks maxSize pages).map Chunk.text,
            (newTableRows docId pages tableOk st.catalog).length,
            tableErrorsOf pages tableOk ++ embedErrorsOf maxSize pages embedSvc⟩
    ∧ (∀ gp ∈ docTableGrids pages, tableOk gp.1 = false →
        tableFailMsg gp.1 ∈ tableErrorsOf pages tableOk ++ embedErrorsOf maxSize pages embedSvc)
    ∧ (∀ c ∈ docChunks maxSize pages, embedSvc c.text = none →
        embedFailMsg c ∈ tableErrorsOf pages tableOk ++ embedErrorsOf maxSize pages embedSvc) := by
  refine ⟨rfl, rfl, ?_, ?_⟩
  · intro gp hgp hbad
    refine List.mem_append_left _ ?_
    rw [tableErrorsOf]
    exact List.mem_filterMap.mpr ⟨gp, hgp, by simp [hbad]⟩
  · intro c hc hbad
    refine List.mem_append_right _ ?_
    rw [embedErrorsOf]
    exact List.mem_filterMap.mpr ⟨c, hc, by rw [hbad]⟩

/-- C7 witness: a concrete read error leaves the empty store unchanged, and in
a concrete run with a failing table store and a failing embedding service both
failures are recorded in the error list. -/
theorem pdf_error_fatal_claim_witness :
    optimized_extract_and_store "d" (PdfReadResult.readError "boom") (fun _ => none)
        (fun _ => false) defaultMaxChunkSize emptyStore = ⟨none, emptyStore⟩
    ∧ tableFailMsg [["alpha"], ["1"]]
        ∈ tableErrorsOf [⟨"Hello there.", [[["alpha"], ["1"]]]⟩] (fun _ => false)
          ++ embedErrorsOf defaultMaxChunkSize [⟨"Hello there.", [[["alpha"], ["1"]]]⟩]
            (fun _ => none) := by
  have h := pdf_error_fatal_claim "d" "boom" [⟨"Hello there.", [[["alpha"], ["1"]]]⟩]
      (fun _ => none) (fun _ => false) defaultMaxChunkSize emptyStore
  exact ⟨h.1, h.2.2.1 ([["alpha"], ["1"]], 1) (by decide) rfl⟩

/-- C8: for every query that is empty or consists only of whitespace,
`APIClient.send_query` logs the `ValidationError` code EMPTY_QUERY and returns
`None` without performing any HTTP request and without raising, and
`send_generic_rag_query` returns `None` for the same input (with or without a
configured backend, also without any request). -/
theorem blank_query_claim (endpoint query : String) (pdfUuid : Option String)
    (net : Frontend.NetOutcome) (backendUrl : Option String) (netG : Frontend.NetOutcome)
    (hq : Frontend.isBlankStr query = true) :
    Frontend.send_query endpoint query pdfUuid net
        = ⟨Frontend.QueryOutcome.returnedNone, [], ["EMPTY_QUERY"]⟩
    ∧ Frontend.send_generic_rag_query backendUrl query netG
        = ⟨Frontend.GenericOutcome.returnedNone, []⟩ := by
  constructor
  · simp [Frontend.send_query, hq]
  · cases backendUrl with
    | none => rfl
    | some b => simp [Frontend.send_generic_rag_query, hq]

/-- C8 witness: the whitespace-only query "   " is rejected by both backends
without any HTTP request. -/
theorem blank_query_claim_witness :
    Frontend.send_query "http://e" "   " none Frontend.NetOutcome.timeout
        = ⟨Frontend.QueryOutcome.returnedNone, [], ["EMPTY_QUERY"]⟩
    ∧ Frontend.send_generic_rag_query (some "http://b") "   " Frontend.NetOutcome.timeout
        = ⟨Frontend.GenericOutcome.returnedNone, []⟩ :=
  blank_query_claim "http://e" "   " none Frontend.NetOutcome.timeout (some "http://b")
    Frontend.NetOutcome.timeout (by decide)

/-- C9: `APIClient.send_query` surfaces failures asymmetrically — for every
HTTP response with a status code other than 200 (404 and 500 included) it
raises an `APIError` to the caller, while a request timeout or a connection
failure is caught, logged (TIMEOUT or CONNECTION_ERROR) and turned into `None`
instead of raising. -/
theorem status_error_asymmetry_claim (endpoint query : String) (pdfUuid : Option String)
    (hq : Frontend.isBlankStr query = false) :
    (∀ r : Frontend.HttpResponse, r.status ≠ 200 →
        ∃ code, (Frontend.send_query endpoint query pdfUuid
          (Frontend.NetOutcome.response r)).outcome
            = Frontend.QueryOutcome.raisedAPIError code)
    ∧ (Frontend.send_query endpoint query pdfUuid Frontend.NetOutcome.timeout).outcome
        = Frontend.QueryOutcome.returnedNone
    ∧ (Frontend.send_query endpoint query pdfUuid Frontend.NetOutcome.timeout).logged
        = ["TIMEOUT"]
    ∧ (Frontend.send_query endpoint query pdfUuid Frontend.NetOutcome.connError).outcome
        = Frontend.QueryOutcome.returnedNone
    ∧ (Frontend.send_query endpoint query pdfUuid Frontend.NetOutcome.connError).logged
        = ["CONNECTION_ERROR"] := by
  refine ⟨?_, by simp [Frontend.send_query, hq], by simp [Frontend.send_query, hq],
    by simp [Frontend.send_query, hq], by simp [Frontend.send_query, hq]⟩
  intro r hr
  by_cases h4 : r.status = 404
  · exact ⟨"ENDPOINT_NOT_FOUND", by simp [Frontend.send_query, hq, h4]⟩
  · by_cases h5 : r.status = 500
    · exact ⟨"SERVER_ERROR", by simp [Frontend.send_query, hq, h4, h5]⟩
    · exact ⟨"UNEXPECTED_STATUS", by simp [Frontend.send_query, hq, h4, h5, hr]⟩

/-- C9 witness: the non-blank query "hi" with a timed-out request is logged
and answered with `None` rather than an exception. -/
theorem status_error_asymmetry_claim_witness :
    (Frontend.send_query "http://e" "hi" none Frontend.NetOutcome.timeout).outcome
        = Frontend.QueryOutcome.returnedNone
    ∧ (Frontend.send_query "http://e" "hi" none Frontend.NetOutcome.timeout).logged
        = ["TIMEOUT"] := by
  have h := status_error_asymmetry_claim "http://e" "hi" none (by decide)
  exact ⟨h.2.1, h.2.2.1⟩

/-- C10 counterexample: for the non-empty input "hi", when the HybridRAG
backend answers with HTTP 404 `send_query` raises an `APIError`, the
surrounding handler catches it, and `_handle_user_input` appends no entry at
all to either response list — not the one entry (with a substituted error
string) the claim asserts — while the user message is left behind with no
`dual_response` marker. -/
theorem dual_append_counterexample :
    (Frontend.handle_user_input "http://e" (some "http://b") (some "u")
        ⟨[], [], [], 0⟩ "hi" (Frontend.NetOutcome.response ⟨404, true, []⟩)
        (Frontend.NetOutcome.response ⟨200, true, [("response", "ok")]⟩)).hybridResponses = []
    ∧ (Frontend.handle_user_input "http://e" (some "http://b") (some "u")
        ⟨[], [], [], 0⟩ "hi" (Frontend.NetOutcome.response ⟨404, true, []⟩)
        (Frontend.NetOutcome.response ⟨200, true, [("response", "ok")]⟩)).genericResponses = []
    ∧ (Frontend.handle_user_input "http://e" (some "http://b") (some "u")
        ⟨[], [], [], 0⟩ "hi" (Frontend.NetOutcome.response ⟨404, true, []⟩)
        (Frontend.NetOutcome.response ⟨200, true, [("response", "ok")]⟩)).messages
      = [("user", "hi")]
    ∧ ¬ ((Frontend.handle_user_input "http://e" (some "http://b") (some "u")
        ⟨[], [], [], 0⟩ "hi" (Frontend.NetOutcome.response ⟨404, true, []⟩)
        (Frontend.NetOutcome.response ⟨200, true, [("response", "ok")]⟩)).hybridResponses.length
      = 0 + 1) := by
  exact ⟨rfl, rfl, rfl, by decide⟩

/-- C10 (amended): `_handle_user_input` preserves the dual-response alignment
invariant — equal lengths of the two response lists, indexed by the
`dual_response` markers — in every case (blank input, an `APIError` raised by
`send_query`, or a completed exchange); and whenever the input is non-blank
and `send_query` does not raise, exactly one entry is appended to each
response list (substituting the fixed error string when a backend returns
`None`) together with exactly one new `dual_response` marker. -/
theorem dual_alignment_claim (endpoint : String) (backendUrl pdfUuid : Option String)
    (st : Frontend.ChatState) (userInput : String)
    (hybridNet genericNet : Frontend.NetOutcome)
    (hal : Frontend.aligned st) :
    Frontend.aligned (Frontend.handle_user_input endpoint backendUrl pdfUuid st userInput
        hybridNet genericNet)
    ∧ (Frontend.isBlankStr userInput = false →
        (∀ code, (Frontend.send_query endpoint (Frontend.pyStrip userInput) pdfUuid
            hybridNet).outcome ≠ Frontend.QueryOutcome.raisedAPIError code) →
        (Frontend.handle_user_input endpoint backendUrl pdfUuid st userInput hybridNet
            genericNet).hybridResponses.length = st.hybridResponses.length + 1
        ∧ (Frontend.handle_user_input endpoint backendUrl pdfUuid st userInput hybridNet
            genericNet).genericResponses.length = st.genericResponses.length + 1
        ∧ Frontend.dualResponseCount (Frontend.handle_user_input endpoint backendUrl pdfUuid
            st userInput hybridNet genericNet)
          = Frontend.dualResponseCount st + 1) := by
  obtain ⟨hal1, hal2⟩ := hal
  by_cases hb : Frontend.isBlankStr userInput = true
  · constructor
    · rw [Frontend.handle_user_input, if_pos hb]
      exact ⟨hal1, hal2⟩
    · intro hb' _
      rw [hb] at hb'
      cases hb'
  · have hbf : Frontend.isBlankStr userInput = false := by
      cases hx : Frontend.isBlankStr userInput
      · rfl
      · exact absurd hx hb
    cases hout : (Frontend.send_query endpoint (Frontend.pyStrip userInput) pdfUuid
        hybridNet).outcome with
    | raisedAPIError code =>
      have hst : Frontend.handle_user_input endpoint backendUrl pdfUuid st userInput
          hybridNet genericNet
          = { st with messages := st.messages ++ [("user", Frontend.pyStrip userInput)] } := by
        rw [Frontend.handle_user_input, if_neg (by simp [hbf])]
        simp only [hout]
      constructor
      · rw [hst]
        refine ⟨hal1, ?_⟩
        show Frontend.dualResponseCount _ = st.hybridResponses.length
        rw [Frontend.dualResponseCount]
        simp only [List.countP_append]
        rw [← Frontend.dualResponseCount, hal2]
        simp [List.countP_cons]
      · intro _ hnone
        exact False.elim (hnone code rfl)
    | returnedNone =>
      have hst : Frontend.handle_user_input endpoint backendUrl pdfUuid st userInput
          hybridNet genericNet
          = { st with
              messages := (st.messages ++ [("user", Frontend.pyStrip userInput)])
                ++ [("assistant", "dual_response")]
              hybridResponses := st.hybridResponses ++ [Frontend.hybridErrorMsg]
              genericResponses := st.genericResponses ++
                [match (Frontend.send_generic_rag_query backendUrl
                    (Frontend.pyStrip userInput) genericNet).outcome with
                 | Frontend.GenericOutcome.returned v => v
                 | Frontend.GenericOutcome.returnedNone => Frontend.genericErrorMsg]
              errorCount := 0 } := by
        rw [Frontend.handle_user_input, if_neg (by simp [hbf])]
        simp only [hout]
      constructor
      · rw [hst]
        refine ⟨by simp [hal1], ?_⟩
        show Frontend.dualResponseCount _ = _
        rw [Frontend.dualResponseCount]
        simp only [List.countP_append]
        rw [← Frontend.dualResponseCount, hal2]
        simp [List.countP_cons]
      · intro _ _
        rw [hst]
        refine ⟨by simp, by simp, ?_⟩
        show Frontend.dualResponseCount _ = _
        rw [Frontend.dualResponseCount, Frontend.dualResponseCount]
        simp [List.countP_append, List.countP_cons]
    | returned a =>
      have hst : Frontend.handle_user_input endpoint backendUrl pdfUuid st userInput
          hybridNet genericNet
          = { st with
              messages := (st.messages ++ [("user", Frontend.pyStrip userInput)])
                ++ [("assistant", "dual_response")]
              hybridResponses := st.hybridResponses ++ [a]
              genericResponses := st.genericResponses ++
                [match (Frontend.send_generic_rag_query backendUrl
                    (Frontend.pyStrip userInput) genericNet).outcome with
                 | Frontend.GenericOutcome.returned v => v
                 | Frontend.GenericOutcome.returnedNone => Frontend.genericErrorMsg]
              errorCount := 0 } := by
        rw [Frontend.handle_user_input, if_neg (by simp [hbf])]
        simp only [hout]
      constructor
      · rw [hst]
        refine ⟨by simp [hal1], ?_⟩
        show Frontend.dualResponseCount _ = _
        rw [Frontend.dualResponseCount]
        simp only [List.countP_append]
        rw [← Frontend.dualResponseCount, hal2]
        simp [List.countP_cons]
      · intro _ _
        rw [hst]
        refine ⟨by simp, by simp, ?_⟩
        show Frontend.dualResponseCount _ = _
        rw [Frontend.dualResponseCount, Frontend.dualResponseCount]
        simp [List.countP_append, List.countP_cons]

/-- C10 witness: a concrete successful exchange appends exactly one entry to
the hybrid response list of the empty chat state. -/
theorem dual_alignment_claim_witness :
    (Frontend.handle_user_input "http://e" (some "http://b") none ⟨[], [], [], 0⟩ "hi"
        (Frontend.NetOutcome.response ⟨200, true, [("answer", "a")]⟩)
        (Frontend.NetOutcome.response ⟨200, true, [("response", "r")]⟩)).hybridResponses.length
      = ([] : List String).length + 1 := by
  have h := dual_alignment_claim "http://e" (some "http://b") none ⟨[], [], [], 0⟩ "hi"
      (Frontend.NetOutcome.response ⟨200, true, [("answer", "a")]⟩)
      (Frontend.NetOutcome.response ⟨200, true, [("response", "r")]⟩)
      ⟨rfl, rfl⟩
  refine (h.2 (by decide) ?_).1
  intro code hcode
  rw [show (Frontend.send_query "http://e" (Frontend.pyStrip "hi") none
      (Frontend.NetOutcome.response ⟨200, true, [("answer", "a")]⟩)).outcome
    = Frontend.QueryOutcome.returned "a" from rfl] at hcode
  cases hcode

end HybridRAG

